import Mathlib

/-!
Verification of the release script bin/build-dist.py.

The script resolves a git tag, normalizes it (swapping the build-metadata
and prerelease components when the tag places the plus segment before the
minus segment), then iterates the cross product of GOOS and GOARCH,
skipping an exclusion list, running the external build command with an
environment overlay, and moving the produced binary into the dist
directory under a name embedding the platform pair and the tag.

Strings handled by the tag-normalization block are modelled as List Char.
The Python operations used by that block are embedded faithfully:
membership testing with the in operator, str.find returning an Int that is
-1 when the character is absent, str.split with maxsplit 1, and list
indexing that can raise IndexError (modelled with Option).
-/

set_option autoImplicit false

/-- Python membership test for a single character: c in s. -/
def containsC (sep : Char) : List Char → Bool
  | [] => false
  | c :: rest => c == sep || containsC sep rest

/-- Index of the first occurrence of a character, if any. -/
def findIdxC (sep : Char) : List Char → Option Nat
  | [] => none
  | c :: rest => if c = sep then some 0 else (findIdxC sep rest).map (· + 1)

/-- Python str.find for a single character: first index, or -1 if absent. -/
def pyFind (sep : Char) (s : List Char) : Int :=
  match findIdxC sep s with
  | some i => (i : Int)
  | none => -1

/-- Split at the first occurrence of a character: some (before, after) when
the character occurs, none otherwise. -/
def splitOnce (sep : Char) : List Char → Option (List Char × List Char)
  | [] => none
  | c :: rest =>
    if c = sep then some ([], rest)
    else
      match splitOnce sep rest with
      | some (a, b) => some (c :: a, b)
      | none => none

/-- Python s.split(sep, 1): two pieces when sep occurs, else the whole
string as a one-element list. -/
def pySplit1 (sep : Char) (s : List Char) : List (List Char) :=
  match splitOnce sep s with
  | some (a, b) => [a, b]
  | none => [s]

/-- The guard of the tag-normalization block of bin/build-dist.py:
"-" in tag and "+" in tag and tag.find("+") < tag.find("-"). -/
def tagGuard (tag : List Char) : Bool :=
  containsC '-' tag && containsC '+' tag && decide (pyFind '+' tag < pyFind '-' tag)

/-- The tag-normalization block of bin/build-dist.py, lines 16 to 21.
List indexing into the split results is partial in Python (IndexError), so
the embedding returns an Option; the value is the possibly rewritten tag. -/
def normalize_tag (tag : List Char) : Option (List Char) :=
  if tagGuard tag then
    Option.bind (pySplit1 '+' tag)[0]? fun ver =>
    Option.bind (pySplit1 '+' tag)[1]? fun rem =>
    Option.bind (pySplit1 '-' rem)[0]? fun build =>
    Option.bind (pySplit1 '-' rem)[1]? fun pre =>
    some (ver ++ '-' :: (pre ++ '+' :: build))
  else
    some tag

/-- Modelled from the words of the specification: when the tag contains
both a minus and a plus and the first plus occurs strictly before the
first minus, split once on the first plus into version and remainder,
split the remainder once on its first minus into build and prerelease,
and reassemble as version, minus, prerelease, plus, build; otherwise the
tag passes through unchanged. -/
def normalize_tag_spec (tag : List Char) : List Char :=
  match findIdxC '+' tag, findIdxC '-' tag with
  | some i, some j =>
    if i < j then
      match splitOnce '+' tag with
      | some (ver, rem) =>
        match splitOnce '-' rem with
        | some (build, pre) => ver ++ '-' :: (pre ++ '+' :: build)
        | none => tag
      | none => tag
    else tag
  | _, _ => tag

/-! ### The release run

The remainder of the script is modelled as an executable function from an
explicit world (the behavior of the external collaborators: git, make,
the filesystem, and the inherited process environment) to a trace of the
effects the script performs, paired with the outcome: none for a clean
exit, or the first uncaught exception. -/

/-- Python str.strip: remove leading and trailing whitespace. -/
def pyStrip (s : List Char) : List Char :=
  (((s.dropWhile fun c => c.isWhitespace).reverse.dropWhile fun c => c.isWhitespace)).reverse

def GOOS : List String := ["darwin", "freebsd", "linux", "openbsd", "windows"]

def GOARCH : List String := ["386", "amd64", "arm", "arm64"]

def IGNORED : List (String × String) := [("darwin", "386"), ("darwin", "arm")]

/-- itertools.product: operating systems in the outer loop, architectures
in the inner loop. -/
def pyProduct (xs ys : List String) : List (String × String) :=
  xs.flatMap fun x => ys.map fun y => (x, y)

/-- Behavior of the external collaborators for one run. -/
structure World where
  environ : String → Option String
  gitExit : Nat
  gitStdout : List Char
  buildExit : String → String → Nat
  renameOk : String → String → Bool
  dirs : List String

/-- One observable effect of the script. -/
inductive Effect where
  | makedirsE (path : String) (exist_ok : Bool)
  | gitDescribeE
  | printE (line : String)
  | buildE (goos goarch : String) (env : String → Option String)
  | renameE (src dst : String)

/-- The uncaught exception that terminates a failing run. -/
inductive RunError where
  | makedirsError
  | calledProcessError (cmd : List String)
  | osError
  | indexError

/-- Lookup in an association list of environment overrides. -/
def lookupStr : List (String × String) → String → Option String
  | [], _ => none
  | (k, v) :: rest, q => if k == q then some v else lookupStr rest q

/-- Python dict merge m | ov: keys of the right operand win; the left
mapping is not mutated, a fresh mapping is produced. -/
def pyEnvUnion (m : String → Option String) (ov : List (String × String)) :
    String → Option String :=
  fun k =>
    match lookupStr ov k with
    | some v => some v
    | none => m k

/-- The dict literal of overrides built for each build invocation. -/
def buildOverrides (goos goarch : String) : List (String × String) :=
  [("GOOS", goos), ("GOARCH", goarch), ("CGO_ENABLED", "0")]

/-- os.makedirs: errors when the directory exists unless exist_ok is set;
returns the updated set of directories on success. -/
def makedirs (path : String) (exist_ok : Bool) (dirs : List String) :
    Option (List String) :=
  if dirs.contains path then
    if exist_ok then some dirs else none
  else some (path :: dirs)

/-- Destination name of one artifact: dist/kubo_ goos _ goarch - tag. -/
def dstName (goos goarch tag : String) : String :=
  "dist/kubo_" ++ goos ++ "_" ++ goarch ++ "-" ++ tag

/-- The for loop of the script over the remaining platform pairs: skip
ignored pairs, print progress, run make build with the environment
overlay, abort on a non-zero exit, move the artifact, abort when the
move fails. -/
def loop (w : World) (tag : String) : List (String × String) → List Effect × Option RunError
  | [] => ([], none)
  | (goos, goarch) :: rest =>
    if IGNORED.contains (goos, goarch) then loop w tag rest
    else
      let pre := [Effect.printE ("building " ++ goos ++ "/" ++ goarch),
                  Effect.buildE goos goarch (pyEnvUnion w.environ (buildOverrides goos goarch))]
      if w.buildExit goos goarch == 0 then
        if w.renameOk "cmd/ipfs/ipfs" (dstName goos goarch tag) then
          (pre ++ Effect.renameE "cmd/ipfs/ipfs" (dstName goos goarch tag) ::
             (loop w tag rest).1,
           (loop w tag rest).2)
        else
          (pre ++ [Effect.renameE "cmd/ipfs/ipfs" (dstName goos goarch tag)],
           some RunError.osError)
      else (pre, some (RunError.calledProcessError ["make", "build"]))

/-- The whole script: create dist, resolve and normalize the tag, print
it, then run the loop over the cross product. -/
def run (w : World) : List Effect × Option RunError :=
  match makedirs "dist" true w.dirs with
  | none => ([Effect.makedirsE "dist" true], some RunError.makedirsError)
  | some _ =>
    if w.gitExit == 0 then
      match normalize_tag (pyStrip w.gitStdout) with
      | none => ([Effect.makedirsE "dist" true, Effect.gitDescribeE], some RunError.indexError)
      | some tagL =>
        ([Effect.makedirsE "dist" true, Effect.gitDescribeE,
          Effect.printE ("using tag " ++ String.mk tagL)]
           ++ (loop w (String.mk tagL) (pyProduct GOOS GOARCH)).1,
         (loop w (String.mk tagL) (pyProduct GOOS GOARCH)).2)
    else
      ([Effect.makedirsE "dist" true, Effect.gitDescribeE],
       some (RunError.calledProcessError ["git", "describe", "--tags"]))

/-- The tag a run resolves, when git succeeds: the stripped stdout of
git describe, rewritten by the normalization block. -/
def runTag (w : World) : Option String :=
  if w.gitExit == 0 then
    (normalize_tag (pyStrip w.gitStdout)).map fun l => String.mk l
  else none

/-- The platform pairs of the build commands in a trace, in order. -/
def builds : List Effect → List (String × String)
  | [] => []
  | Effect.buildE goos goarch _ :: tr => (goos, goarch) :: builds tr
  | _ :: tr => builds tr

/-- The source and destination of the renames in a trace, in order. -/
def renames : List Effect → List (String × String)
  | [] => []
  | Effect.renameE src dst :: tr => (src, dst) :: renames tr
  | _ :: tr => renames tr

/-- Number of git invocations in a trace. -/
def countGit : List Effect → Nat
  | [] => 0
  | Effect.gitDescribeE :: tr => countGit tr + 1
  | _ :: tr => countGit tr

/-- A pair fully succeeds when its build command exits zero and the
following rename succeeds. -/
def pairOk (w : World) (tag : String) (p : String × String) : Bool :=
  (w.buildExit p.1 p.2 == 0) && w.renameOk "cmd/ipfs/ipfs" (dstName p.1 p.2 tag)

/-- The non-excluded pairs of the matrix, in cross-product order. -/
def active : List (String × String) :=
  (pyProduct GOOS GOARCH).filter fun p => !(IGNORED.contains p)

/-- Take elements while the predicate holds, keeping the first failing
element as the last one. -/
def takeThrough {α : Type} (q : α → Bool) : List α → List α
  | [] => []
  | x :: xs => if q x then x :: takeThrough q xs else [x]

/-- A world in which every external step succeeds and git reports the
tag v0.30.0. -/
def allOkWorld : World where
  environ := fun _ => none
  gitExit := 0
  gitStdout := "v0.30.0".toList
  buildExit := fun _ _ => 0
  renameOk := fun _ _ => true
  dirs := []

/-- A world in which the git tag lookup fails. -/
def gitFailWorld : World where
  environ := fun _ => none
  gitExit := 128
  gitStdout := []
  buildExit := fun _ _ => 0
  renameOk := fun _ _ => true
  dirs := []

/-! ### Lemmas about the character-list helpers -/

theorem containsC_eq_isSome (sep : Char) (s : List Char) :
    containsC sep s = (findIdxC sep s).isSome := by
  induction s with
  | nil => rfl
  | cons c rest ih =>
    by_cases h : c = sep
    · simp [containsC, findIdxC, h]
    · simp [containsC, findIdxC, h, ih]

theorem containsC_append (sep : Char) (a b : List Char) :
    containsC sep (a ++ b) = (containsC sep a || containsC sep b) := by
  induction a with
  | nil => simp [containsC]
  | cons c rest ih => simp [containsC, ih, Bool.or_assoc]

theorem findIdxC_lt_length (sep : Char) (s : List Char) (k : Nat)
    (h : findIdxC sep s = some k) : k < s.length := by
  induction s generalizing k with
  | nil => simp [findIdxC] at h
  | cons c rest ih =>
    by_cases hc : c = sep
    · simp [findIdxC, hc] at h
      simp [List.length_cons]
      omega
    · simp [findIdxC, hc] at h
      obtain ⟨j, hj, hk⟩ := h
      have := ih j hj
      simp [List.length_cons]
      omega

theorem findIdxC_append_left (sep : Char) (a b : List Char) (k : Nat)
    (h : findIdxC sep a = some k) : findIdxC sep (a ++ b) = some k := by
  induction a generalizing k with
  | nil => simp [findIdxC] at h
  | cons c rest ih =>
    by_cases hc : c = sep
    · simp [findIdxC, hc] at h ⊢
      omega
    · simp [findIdxC, hc] at h ⊢
      obtain ⟨j, hj, hk⟩ := h
      exact ⟨j, ih j hj, hk⟩

theorem findIdxC_append_right (sep : Char) (a b : List Char)
    (h : containsC sep a = false) :
    findIdxC sep (a ++ b) = (findIdxC sep b).map (· + a.length) := by
  induction a with
  | nil => simp
  | cons c rest ih =>
    simp [containsC] at h
    obtain ⟨hc, hrest⟩ := h
    have hc2 : ¬ c = sep := by
      intro he
      rw [he] at hc
      simp at hc
    simp [findIdxC, hc2, ih hrest]

theorem tagGuard_parts (tag : List Char) (h : tagGuard tag = true) :
    containsC '-' tag = true ∧ containsC '+' tag = true ∧
    pyFind '+' tag < pyFind '-' tag := by
  simp [tagGuard] at h
  exact ⟨h.1.1, h.1.2, h.2⟩

theorem splitOnce_of_containsC (sep : Char) (s : List Char)
    (h : containsC sep s = true) : ∃ a b, splitOnce sep s = some (a, b) := by
  induction s with
  | nil => simp [containsC] at h
  | cons c rest ih =>
    by_cases hc : c = sep
    · exact ⟨[], rest, by simp [splitOnce, hc]⟩
    · have hc1 : (c == sep) = false := by
        simp [hc]
      simp [containsC, hc1] at h
      obtain ⟨a, b, hab⟩ := ih h
      exact ⟨c :: a, b, by simp [splitOnce, hc, hab]⟩

theorem splitOnce_parts (sep : Char) (s a b : List Char)
    (h : splitOnce sep s = some (a, b)) :
    s = a ++ sep :: b ∧ containsC sep a = false := by
  induction s generalizing a b with
  | nil => simp [splitOnce] at h
  | cons c rest ih =>
    by_cases hc : c = sep
    · simp [splitOnce, hc] at h
      obtain ⟨ha, hb⟩ := h
      subst ha
      subst hb
      simp [hc, containsC]
    · simp only [splitOnce, if_neg hc] at h
      cases hs : splitOnce sep rest with
      | none => rw [hs] at h; simp at h
      | some ab =>
        obtain ⟨a0, b0⟩ := ab
        rw [hs] at h
        simp at h
        obtain ⟨ha, hb⟩ := h
        obtain ⟨h1, h2⟩ := ih a0 b0 hs
        subst hb
        have : a = c :: a0 := ha.symm
        subst this
        constructor
        · simp [h1]
        · simp [containsC, hc, h2]

theorem findIdxC_of_splitOnce (sep : Char) (s a b : List Char)
    (h : splitOnce sep s = some (a, b)) : findIdxC sep s = some a.length := by
  obtain ⟨hs, hca⟩ := splitOnce_parts sep s a b h
  subst hs
  rw [findIdxC_append_right sep a (sep :: b) hca]
  simp [findIdxC]

theorem containsC_true_of_findIdxC (sep : Char) (s : List Char) (k : Nat)
    (h : findIdxC sep s = some k) : containsC sep s = true := by
  rw [containsC_eq_isSome, h]
  rfl

theorem findIdxC_some_of_containsC (sep : Char) (s : List Char)
    (h : containsC sep s = true) : ∃ k, findIdxC sep s = some k := by
  rw [containsC_eq_isSome] at h
  exact Option.isSome_iff_exists.mp h

theorem ver_no_minus (tag ver rem : List Char)
    (hsp : splitOnce '+' tag = some (ver, rem))
    (hlt : pyFind '+' tag < pyFind '-' tag) :
    containsC '-' ver = false := by
  cases hx : containsC '-' ver with
  | false => rfl
  | true =>
    exfalso
    obtain ⟨k, hk⟩ := findIdxC_some_of_containsC '-' ver hx
    have hklt : k < ver.length := findIdxC_lt_length '-' ver k hk
    obtain ⟨hs, hca⟩ := splitOnce_parts '+' tag ver rem hsp
    have h1 : findIdxC '-' tag = some k := by
      rw [hs]
      exact findIdxC_append_left '-' ver ('+' :: rem) k hk
    have h2 : findIdxC '+' tag = some ver.length :=
      findIdxC_of_splitOnce '+' tag ver rem hsp
    simp [pyFind, h1, h2] at hlt
    omega

theorem guard_true_parts (tag : List Char) (h : tagGuard tag = true) :
    ∃ ver rem build pre,
      splitOnce '+' tag = some (ver, rem) ∧
      splitOnce '-' rem = some (build, pre) ∧
      containsC '-' ver = false ∧ containsC '+' ver = false ∧
      normalize_tag tag = some (ver ++ '-' :: (pre ++ '+' :: build)) := by
  obtain ⟨hc1, hc2, hlt⟩ := tagGuard_parts tag h
  obtain ⟨ver, rem, hsp⟩ := splitOnce_of_containsC '+' tag hc2
  have hvm : containsC '-' ver = false := ver_no_minus tag ver rem hsp hlt
  obtain ⟨hs, hvp⟩ := splitOnce_parts '+' tag ver rem hsp
  have hrm : containsC '-' rem = true := by
    rw [hs, containsC_append] at hc1
    simp [hvm, containsC] at hc1
    exact hc1
  obtain ⟨build, pre, hsp2⟩ := splitOnce_of_containsC '-' rem hrm
  refine ⟨ver, rem, build, pre, hsp, hsp2, hvm, hvp, ?_⟩
  simp [normalize_tag, h, pySplit1, hsp, hsp2]

theorem normalize_tag_guard_false (tag : List Char) (h : tagGuard tag = false) :
    normalize_tag tag = some tag := by
  simp [normalize_tag, h]

theorem spec_guard_false (tag : List Char) (h : tagGuard tag = false) :
    normalize_tag_spec tag = tag := by
  cases h1 : findIdxC '+' tag with
  | none => simp [normalize_tag_spec, h1]
  | some i =>
    cases h2 : findIdxC '-' tag with
    | none => simp [normalize_tag_spec, h1, h2]
    | some j =>
      have hc1 : containsC '-' tag = true := containsC_true_of_findIdxC '-' tag j h2
      have hc2 : containsC '+' tag = true := containsC_true_of_findIdxC '+' tag i h1
      simp [tagGuard, hc1, hc2, pyFind, h1, h2] at h
      simp [normalize_tag_spec, h1, h2]
      intro hij
      omega

/-- C1: normalize_tag behaves as specified for every input string: when the
tag contains both a minus and a plus and the first plus occurs strictly
before the first minus, the result is obtained by splitting once on the
first plus into version and remainder, splitting the remainder once on its
first minus into build and prerelease, and reassembling as version, minus,
prerelease, plus, build; otherwise the tag is returned unchanged. The
concrete conjuncts check the three examples from the specification. -/
theorem claim_C1_normalize_tag :
    (∀ tag : List Char, normalize_tag tag = some (normalize_tag_spec tag)) ∧
    normalize_tag "1.2.0+abc123-rc1".toList = some "1.2.0-rc1+abc123".toList ∧
    normalize_tag "1.2.0-rc1".toList = some "1.2.0-rc1".toList ∧
    normalize_tag "1.2.0+abc123".toList = some "1.2.0+abc123".toList := by
  refine ⟨?_, by decide, by decide, by decide⟩
  intro tag
  cases h : tagGuard tag with
  | false => rw [normalize_tag_guard_false tag h, spec_guard_false tag h]
  | true =>
    obtain ⟨ver, rem, build, pre, hsp, hsp2, hvm, hvp, hnt⟩ := guard_true_parts tag h
    rw [hnt]
    obtain ⟨hs, hca⟩ := splitOnce_parts '+' tag ver rem hsp
    have h1 : findIdxC '+' tag = some ver.length :=
      findIdxC_of_splitOnce '+' tag ver rem hsp
    have hd : findIdxC '-' rem = some build.length :=
      findIdxC_of_splitOnce '-' rem build pre hsp2
    have h2 : findIdxC '-' tag = some (build.length + 1 + ver.length) := by
      rw [hs, findIdxC_append_right '-' ver ('+' :: rem) hvm]
      simp [findIdxC, show ('+' : Char) ≠ '-' by decide, hd]
    have hspec : normalize_tag_spec tag = ver ++ '-' :: (pre ++ '+' :: build) := by
      simp [normalize_tag_spec, h1, h2, hsp, hsp2]
    rw [hspec]

/-- C9: tag normalization is idempotent: whenever the normalization block
produces a value, applying the block to that value returns it unchanged,
because in every rewritten string the first minus precedes the first plus,
so the guard fails on a second application. -/
theorem claim_C9_idempotent :
    ∀ tag t : List Char, normalize_tag tag = some t → normalize_tag t = some t := by
  intro tag t h
  cases hg : tagGuard tag with
  | false =>
    rw [normalize_tag_guard_false tag hg] at h
    injection h with h
    subst h
    exact normalize_tag_guard_false tag hg
  | true =>
    obtain ⟨ver, rem, build, pre, hsp, hsp2, hvm, hvp, hnt⟩ := guard_true_parts tag hg
    rw [hnt] at h
    injection h with h
    subst h
    apply normalize_tag_guard_false
    have hplus : containsC '+' (pre ++ '+' :: build) = true := by
      rw [containsC_append]
      simp [containsC]
    obtain ⟨j, hj⟩ := findIdxC_some_of_containsC '+' (pre ++ '+' :: build) hplus
    have hminus : findIdxC '-' (ver ++ '-' :: (pre ++ '+' :: build)) = some (0 + ver.length) := by
      rw [findIdxC_append_right '-' ver ('-' :: (pre ++ '+' :: build)) hvm]
      simp [findIdxC]
    have hplus2 : findIdxC '+' (ver ++ '-' :: (pre ++ '+' :: build)) = some (j + 1 + ver.length) := by
      rw [findIdxC_append_right '+' ver ('-' :: (pre ++ '+' :: build)) hvp]
      simp [findIdxC, show ('-' : Char) ≠ '+' by decide, hj]
    have hz : decide (pyFind '+' (ver ++ '-' :: (pre ++ '+' :: build)) <
        pyFind '-' (ver ++ '-' :: (pre ++ '+' :: build))) = false := by
      apply decide_eq_false
      simp [pyFind, hminus, hplus2]
      omega
    simp [tagGuard, hz]

/-- C10: tag normalization is total and never raises for any input string:
whenever the guard holds, both single splits yield two parts, so the
index accesses at position one are always defined. -/
theorem claim_C10_total : ∀ tag : List Char, (normalize_tag tag).isSome = true := by
  intro tag
  cases h : tagGuard tag with
  | false =>
    rw [normalize_tag_guard_false tag h]
    rfl
  | true =>
    obtain ⟨ver, rem, build, pre, hsp, hsp2, hvm, hvp, hnt⟩ := guard_true_parts tag h
    rw [hnt]
    rfl

/-! ### Lemmas about traces of the release run -/

theorem builds_append (a b : List Effect) : builds (a ++ b) = builds a ++ builds b := by
  induction a with
  | nil => rfl
  | cons e a ih => cases e <;> simp [builds, ih]

theorem renames_append (a b : List Effect) : renames (a ++ b) = renames a ++ renames b := by
  induction a with
  | nil => rfl
  | cons e a ih => cases e <;> simp [renames, ih]

theorem countGit_append (a b : List Effect) : countGit (a ++ b) = countGit a + countGit b := by
  induction a with
  | nil => simp [countGit]
  | cons e a ih =>
    cases e <;> simp [countGit, ih]
    omega

theorem takeThrough_all {α : Type} (q : α → Bool) (l : List α)
    (h : ∀ x ∈ l, q x = true) : takeThrough q l = l := by
  induction l with
  | nil => rfl
  | cons x xs ih =>
    have hx : q x = true := h x (by simp)
    simp [takeThrough, hx]
    exact ih fun y hy => h y (by simp [hy])

theorem takeThrough_subset {α : Type} (q : α → Bool) (l : List α) (x : α)
    (h : x ∈ takeThrough q l) : x ∈ l := by
  induction l with
  | nil => simp [takeThrough] at h
  | cons y ys ih =>
    by_cases hy : q y = true
    · simp [takeThrough, hy] at h
      rcases h with h | h
      · simp [h]
      · simp [ih h]
    · simp [takeThrough, Bool.of_not_eq_true hy] at h
      simp [h]

theorem loop_builds (w : World) (tag : String) (ps : List (String × String)) :
    builds (loop w tag ps).1 =
      takeThrough (pairOk w tag) (ps.filter fun p => !(IGNORED.contains p)) := by
  induction ps with
  | nil => rfl
  | cons p rest ih =>
    obtain ⟨goos, goarch⟩ := p
    by_cases hig : (goos, goarch) ∈ IGNORED
    · simp [loop, hig, List.filter_cons, ih]
    · by_cases hbe : w.buildExit goos goarch = 0
      · by_cases hrn : w.renameOk "cmd/ipfs/ipfs" (dstName goos goarch tag) = true
        · simp [loop, hig, hbe, hrn, List.filter_cons, takeThrough, pairOk, builds, ih]
        · simp [loop, hig, hbe, hrn, List.filter_cons, takeThrough, pairOk, builds]
      · simp [loop, hig, hbe, List.filter_cons, takeThrough, pairOk, builds]

theorem loop_renames (w : World) (tag : String) (ps : List (String × String)) :
    renames (loop w tag ps).1 =
      ((builds (loop w tag ps).1).filter fun p => w.buildExit p.1 p.2 == 0).map
        fun p => ("cmd/ipfs/ipfs", dstName p.1 p.2 tag) := by
  induction ps with
  | nil => rfl
  | cons p rest ih =>
    obtain ⟨goos, goarch⟩ := p
    by_cases hig : (goos, goarch) ∈ IGNORED
    · simp [loop, hig, ih]
    · by_cases hbe : w.buildExit goos goarch = 0
      · by_cases hrn : w.renameOk "cmd/ipfs/ipfs" (dstName goos goarch tag) = true
        · simp [loop, hig, hbe, hrn, builds, renames, List.filter_cons, ih]
        · simp [loop, hig, hbe, hrn, builds, renames, List.filter_cons]
      · simp [loop, hig, hbe, builds, renames, List.filter_cons]

theorem loop_none_iff (w : World) (tag : String) (ps : List (String × String)) :
    (loop w tag ps).2 = none ↔
      ∀ p ∈ ps.filter (fun p => !(IGNORED.contains p)), pairOk w tag p = true := by
  induction ps with
  | nil => simp [loop]
  | cons p rest ih =>
    obtain ⟨goos, goarch⟩ := p
    by_cases hig : (goos, goarch) ∈ IGNORED
    · simp [loop, hig, List.filter_cons, ih]
    · by_cases hbe : w.buildExit goos goarch = 0
      · by_cases hrn : w.renameOk "cmd/ipfs/ipfs" (dstName goos goarch tag) = true
        · simp [loop, hig, hbe, hrn, List.filter_cons, pairOk, ih]
        · simp [loop, hig, hbe, hrn, List.filter_cons, pairOk]
      · simp [loop, hig, hbe, List.filter_cons, pairOk]

theorem loop_err_kinds (w : World) (tag : String) (ps : List (String × String)) :
    (loop w tag ps).2 = none ∨
    (loop w tag ps).2 = some (RunError.calledProcessError ["make", "build"]) ∨
    (loop w tag ps).2 = some RunError.osError := by
  induction ps with
  | nil => simp [loop]
  | cons p rest ih =>
    obtain ⟨goos, goarch⟩ := p
    by_cases hig : (goos, goarch) ∈ IGNORED
    · simpa [loop, hig] using ih
    · by_cases hbe : w.buildExit goos goarch = 0
      · by_cases hrn : w.renameOk "cmd/ipfs/ipfs" (dstName goos goarch tag) = true
        · simpa [loop, hig, hbe, hrn] using ih
        · simp [loop, hig, hbe, hrn]
      · simp [loop, hig, hbe]

theorem loop_countGit (w : World) (tag : String) (ps : List (String × String)) :
    countGit (loop w tag ps).1 = 0 := by
  induction ps with
  | nil => rfl
  | cons p rest ih =>
    obtain ⟨goos, goarch⟩ := p
    by_cases hig : (goos, goarch) ∈ IGNORED
    · simp [loop, hig, ih]
    · by_cases hbe : w.buildExit goos goarch = 0
      · by_cases hrn : w.renameOk "cmd/ipfs/ipfs" (dstName goos goarch tag) = true
        · simp [loop, hig, hbe, hrn, countGit, ih]
        · simp [loop, hig, hbe, hrn, countGit]
      · simp [loop, hig, hbe, countGit]

theorem loop_buildE_env (w : World) (tag : String) (ps : List (String × String))
    (goos goarch : String) (env : String → Option String)
    (h : Effect.buildE goos goarch env ∈ (loop w tag ps).1) :
    env = pyEnvUnion w.environ (buildOverrides goos goarch) := by
  induction ps with
  | nil => simp [loop] at h
  | cons p rest ih =>
    obtain ⟨g, a⟩ := p
    by_cases hig : (g, a) ∈ IGNORED
    · rw [loop] at h
      simp only [hig, List.elem_eq_mem, decide_eq_true_eq, if_true, decide_True] at h
      exact ih h
    · rw [loop] at h
      by_cases hbe : w.buildExit g a = 0
      · by_cases hrn : w.renameOk "cmd/ipfs/ipfs" (dstName g a tag) = true
        · simp [hig, hbe, hrn] at h
          rcases h with ⟨hg, ha, he⟩ | h
          · subst hg; subst ha; simp [he]
          · exact ih h
        · simp [hig, hbe, hrn] at h
          obtain ⟨hg, ha, he⟩ := h
          subst hg; subst ha; simp [he]
      · simp [hig, hbe] at h
        obtain ⟨hg, ha, he⟩ := h
        subst hg; subst ha; simp [he]

theorem makedirs_dist (dirs : List String) :
    ∃ d2, makedirs "dist" true dirs = some d2 ∧ "dist" ∈ d2 := by
  by_cases h : "dist" ∈ dirs
  · exact ⟨dirs, by simp [makedirs, h], h⟩
  · exact ⟨"dist" :: dirs, by simp [makedirs, h], by simp⟩

theorem runTag_parts (w : World) (tag : String) (h : runTag w = some tag) :
    (w.gitExit == 0) = true ∧ normalize_tag (pyStrip w.gitStdout) = some tag.toList := by
  by_cases hg : (w.gitExit == 0) = true
  · simp only [runTag, hg, if_true] at h
    obtain ⟨l, hl, hmk⟩ := Option.map_eq_some'.mp h
    subst hmk
    exact ⟨hg, hl⟩
  · simp [runTag, Bool.of_not_eq_true hg] at h

theorem run_eq_of_tag (w : World) (tag : String) (h : runTag w = some tag) :
    run w = ([Effect.makedirsE "dist" true, Effect.gitDescribeE,
              Effect.printE ("using tag " ++ tag)]
               ++ (loop w tag (pyProduct GOOS GOARCH)).1,
             (loop w tag (pyProduct GOOS GOARCH)).2) := by
  obtain ⟨hg, hl⟩ := runTag_parts w tag h
  obtain ⟨d2, hd, _⟩ := makedirs_dist w.dirs
  have hmk : String.mk tag.toList = tag := rfl
  rw [run, hd, hg]
  simp [hl, hmk]

theorem run_git_fail (w : World) (hg : (w.gitExit == 0) = false) :
    run w = ([Effect.makedirsE "dist" true, Effect.gitDescribeE],
             some (RunError.calledProcessError ["git", "describe", "--tags"])) := by
  obtain ⟨d2, hd, _⟩ := makedirs_dist w.dirs
  rw [run, hd, hg]
  simp

theorem run_indexError (w : World) (hg : (w.gitExit == 0) = true)
    (hn : normalize_tag (pyStrip w.gitStdout) = none) :
    run w = ([Effect.makedirsE "dist" true, Effect.gitDescribeE],
             some RunError.indexError) := by
  obtain ⟨d2, hd, _⟩ := makedirs_dist w.dirs
  rw [run, hd, hg]
  simp [hn]

theorem run_builds_not_ignored (w : World) (p : String × String)
    (hp : p ∈ builds (run w).1) : ¬ p ∈ IGNORED := by
  intro hig
  by_cases hg : (w.gitExit == 0) = true
  · cases hn : normalize_tag (pyStrip w.gitStdout) with
    | none =>
      rw [run_indexError w hg hn] at hp
      simp [builds] at hp
    | some l =>
      have ht : runTag w = some (String.mk l) := by simp [runTag, hg, hn]
      rw [run_eq_of_tag w _ ht] at hp
      simp [builds_append, builds] at hp
      rw [loop_builds] at hp
      have hmem := takeThrough_subset _ _ _ hp
      rw [List.mem_filter] at hmem
      have := hmem.2
      simp at this
      exact this hig
  · rw [run_git_fail w (Bool.of_not_eq_true hg)] at hp
    simp [builds] at hp

/-- C2: for every run in which git succeeds and all builds and renames
succeed, a build step is attempted exactly once for each platform pair in
the cross product GOOS x GOARCH minus the exclusion set, in the
deterministic cross-product order with excluded pairs skipped in place. -/
theorem claim_C2_build_matrix (w : World) (tag : String)
    (h1 : runTag w = some tag)
    (h2 : ∀ p ∈ active, pairOk w tag p = true) :
    builds (run w).1 = (pyProduct GOOS GOARCH).filter (fun p => !(IGNORED.contains p)) ∧
    List.Nodup (builds (run w).1) := by
  have hb : builds (run w).1 =
      (pyProduct GOOS GOARCH).filter (fun p => !(IGNORED.contains p)) := by
    rw [run_eq_of_tag w tag h1]
    simp [builds_append, builds]
    rw [loop_builds]
    exact takeThrough_all _ _ h2
  refine ⟨hb, ?_⟩
  rw [hb]
  decide

theorem claim_C2_witness :
    runTag allOkWorld = some "v0.30.0" ∧
    (∀ p ∈ active, pairOk allOkWorld "v0.30.0" p = true) ∧
    (builds (run allOkWorld).1 =
       (pyProduct GOOS GOARCH).filter (fun p => !(IGNORED.contains p)) ∧
     List.Nodup (builds (run allOkWorld).1)) :=
  ⟨rfl, by decide, claim_C2_build_matrix allOkWorld "v0.30.0" rfl (by decide)⟩

/-- C3: in every run, whatever the external world does, no build step is
ever attempted for the pairs darwin 386 and darwin arm. -/
theorem claim_C3_exclusions (w : World) :
    ((builds (run w).1).contains ("darwin", "386") = false) ∧
    ((builds (run w).1).contains ("darwin", "arm") = false) := by
  constructor
  · cases hc : (builds (run w).1).contains ("darwin", "386") with
    | false => rfl
    | true =>
      exfalso
      have hm : ("darwin", "386") ∈ builds (run w).1 := by simpa using hc
      exact run_builds_not_ignored w _ hm (by decide)
  · cases hc : (builds (run w).1).contains ("darwin", "arm") with
    | false => rfl
    | true =>
      exfalso
      have hm : ("darwin", "arm") ∈ builds (run w).1 := by simpa using hc
      exact run_builds_not_ignored w _ hm (by decide)

/-- C4: for every pair whose build command succeeds, the artifact at the
fixed path cmd/ipfs/ipfs is moved into the distribution directory under
the name dist/kubo_ goos _ goarch - tag; the renames of a run are exactly
the successful builds, in order, with that naming. In particular, for pair
linux amd64 and tag v0.30.0 the artifact ends up at
dist/kubo_linux_amd64-v0.30.0. -/
theorem claim_C4_artifacts :
    (∀ (w : World) (tag : String), runTag w = some tag →
      renames (run w).1 =
        ((builds (run w).1).filter fun p => w.buildExit p.1 p.2 == 0).map
          fun p => ("cmd/ipfs/ipfs", dstName p.1 p.2 tag)) ∧
    ("cmd/ipfs/ipfs", "dist/kubo_linux_amd64-v0.30.0") ∈ renames (run allOkWorld).1 := by
  constructor
  · intro w tag h
    rw [run_eq_of_tag w tag h]
    simp [renames_append, renames, builds_append, builds]
    exact loop_renames w tag (pyProduct GOOS GOARCH)
  · decide

theorem claim_C4_witness :
    runTag allOkWorld = some "v0.30.0" ∧
    renames (run allOkWorld).1 =
      ((builds (run allOkWorld).1).filter
          fun p => allOkWorld.buildExit p.1 p.2 == 0).map
        fun p => ("cmd/ipfs/ipfs", dstName p.1 p.2 "v0.30.0") :=
  ⟨rfl, claim_C4_artifacts.1 allOkWorld "v0.30.0" rfl⟩

/-- C5: every failure is fatal and uncaught. When git exits non-zero the
run aborts before any build with the propagated subprocess error. When git
succeeds, the attempted builds are exactly the non-excluded pairs through
the first failing one; the run ends cleanly iff every pair fully succeeds;
and the only possible failures are the propagated make failure or the
rename failure, none of which is retried or recovered. -/
theorem claim_C5_fatal_errors (w : World) (tag : String) :
    (w.gitExit ≠ 0 →
      builds (run w).1 = [] ∧
      (run w).2 = some (RunError.calledProcessError ["git", "describe", "--tags"])) ∧
    (runTag w = some tag →
      builds (run w).1 = takeThrough (pairOk w tag) active ∧
      ((run w).2 = none ↔ ∀ p ∈ active, pairOk w tag p = true) ∧
      ((run w).2 = none ∨
       (run w).2 = some (RunError.calledProcessError ["make", "build"]) ∨
       (run w).2 = some RunError.osError)) := by
  constructor
  · intro h
    have hg : (w.gitExit == 0) = false := by
      cases hx : w.gitExit == 0
      · rfl
      · exact absurd (eq_of_beq hx) h
    rw [run_git_fail w hg]
    exact ⟨rfl, rfl⟩
  · intro h
    rw [run_eq_of_tag w tag h]
    refine ⟨?_, ?_, ?_⟩
    · simp [builds_append, builds]
      rw [loop_builds]
      rfl
    · simpa [active] using loop_none_iff w tag (pyProduct GOOS GOARCH)
    · simpa using loop_err_kinds w tag (pyProduct GOOS GOARCH)

theorem claim_C5_witness :
    gitFailWorld.gitExit ≠ 0 ∧
    (builds (run gitFailWorld).1 = [] ∧
     (run gitFailWorld).2 =
       some (RunError.calledProcessError ["git", "describe", "--tags"])) :=
  ⟨by decide, (claim_C5_fatal_errors gitFailWorld "").1 (by decide)⟩

/-- C6: the version tag is resolved and normalized exactly once per run,
before the build loop, and the very same tag string appears in the
artifact name of every pair built during that run. -/
theorem claim_C6_tag_once (w : World) (tag : String) (h : runTag w = some tag) :
    countGit (run w).1 = 1 ∧
    (∃ rest, (run w).1 =
      [Effect.makedirsE "dist" true, Effect.gitDescribeE,
       Effect.printE ("using tag " ++ tag)] ++ rest ∧ countGit rest = 0) ∧
    (∀ sd ∈ renames (run w).1, ∃ goos goarch,
       sd = ("cmd/ipfs/ipfs", dstName goos goarch tag)) := by
  rw [run_eq_of_tag w tag h]
  refine ⟨?_, ⟨(loop w tag (pyProduct GOOS GOARCH)).1, rfl, loop_countGit w tag _⟩, ?_⟩
  · simp [countGit_append, countGit, loop_countGit]
  · intro sd hsd
    simp [renames_append, renames] at hsd
    rw [loop_renames] at hsd
    obtain ⟨p, hp, hpe⟩ := List.mem_map.mp hsd
    exact ⟨p.1, p.2, hpe.symm⟩

theorem claim_C6_witness :
    runTag allOkWorld = some "v0.30.0" ∧
    (countGit (run allOkWorld).1 = 1 ∧
     (∃ rest, (run allOkWorld).1 =
       [Effect.makedirsE "dist" true, Effect.gitDescribeE,
        Effect.printE ("using tag " ++ "v0.30.0")] ++ rest ∧ countGit rest = 0) ∧
     (∀ sd ∈ renames (run allOkWorld).1, ∃ goos goarch,
        sd = ("cmd/ipfs/ipfs", dstName goos goarch "v0.30.0"))) :=
  ⟨rfl, claim_C6_tag_once allOkWorld "v0.30.0" rfl⟩

theorem run_head (w : World) :
    (run w).1.get? 0 = some (Effect.makedirsE "dist" true) := by
  obtain ⟨d2, hd, _⟩ := makedirs_dist w.dirs
  rw [run, hd]
  by_cases hg : (w.gitExit == 0) = true
  · cases hn : normalize_tag (pyStrip w.gitStdout) with
    | none => simp [hg, hn]
    | some l => simp [hg, hn]
  · simp [Bool.of_not_eq_true hg]

/-- C7: the distribution directory is created at the start of the run if it
does not already exist, the creation raises no error when it already
exists, and the creation effect precedes every rename, so the directory
exists before any artifact is written into it. -/
theorem claim_C7_dist_dir :
    (∀ dirs : List String, ∃ d2, makedirs "dist" true dirs = some d2 ∧ "dist" ∈ d2) ∧
    (∀ dirs : List String, "dist" ∈ dirs → makedirs "dist" true dirs = some dirs) ∧
    (∀ w : World, (run w).1.get? 0 = some (Effect.makedirsE "dist" true)) ∧
    (∀ (w : World) (i : Nat) (src dst : String),
       (run w).1.get? i = some (Effect.renameE src dst) → 0 < i) := by
  refine ⟨makedirs_dist, ?_, run_head, ?_⟩
  · intro dirs h
    simp [makedirs, h]
  · intro w i src dst hi
    cases i with
    | zero =>
      have h0 := run_head w
      rw [hi] at h0
      simp at h0
    | succ n => omega

theorem claim_C7_witness :
    "dist" ∈ ["dist"] ∧ makedirs "dist" true ["dist"] = some ["dist"] :=
  ⟨by decide, claim_C7_dist_dir.2.1 ["dist"] (by decide)⟩

theorem run_buildE_env (w : World) (goos goarch : String)
    (env : String → Option String)
    (hm : Effect.buildE goos goarch env ∈ (run w).1) :
    env = pyEnvUnion w.environ (buildOverrides goos goarch) := by
  by_cases hg : (w.gitExit == 0) = true
  · cases hn : normalize_tag (pyStrip w.gitStdout) with
    | none =>
      rw [run_indexError w hg hn] at hm
      simp at hm
    | some l =>
      have ht : runTag w = some (String.mk l) := by simp [runTag, hg, hn]
      rw [run_eq_of_tag w _ ht] at hm
      simp at hm
      exact loop_buildE_env w _ _ goos goarch env hm
  · rw [run_git_fail w (Bool.of_not_eq_true hg)] at hm
    simp at hm

/-- C8: for every build invocation, the environment passed to the external
build command is a fresh overlay of the inherited process environment with
exactly GOOS, GOARCH and CGO_ENABLED overridden, and it agrees with the
unmodified inherited environment on every other key; the inherited mapping
itself stays the same value for every iteration. -/
theorem claim_C8_env_overlay (w : World) (i : Nat) (goos goarch : String)
    (env : String → Option String)
    (h : (run w).1.get? i = some (Effect.buildE goos goarch env)) :
    env = pyEnvUnion w.environ (buildOverrides goos goarch) ∧
    env "GOOS" = some goos ∧ env "GOARCH" = some goarch ∧
    env "CGO_ENABLED" = some "0" ∧
    (∀ k, k ≠ "GOOS" → k ≠ "GOARCH" → k ≠ "CGO_ENABLED" → env k = w.environ k) := by
  have henv : env = pyEnvUnion w.environ (buildOverrides goos goarch) :=
    run_buildE_env w goos goarch env (List.get?_mem h)
  subst henv
  refine ⟨rfl, rfl, rfl, rfl, ?_⟩
  intro k h1 h2 h3
  have e1 : ("GOOS" == k) = false := beq_eq_false_iff_ne.mpr (Ne.symm h1)
  have e2 : ("GOARCH" == k) = false := beq_eq_false_iff_ne.mpr (Ne.symm h2)
  have e3 : ("CGO_ENABLED" == k) = false := beq_eq_false_iff_ne.mpr (Ne.symm h3)
  simp [pyEnvUnion, buildOverrides, lookupStr, e1, e2, e3]

theorem claim_C8_witness :
    (run allOkWorld).1.get? 4 = some (Effect.buildE "darwin" "amd64"
      (pyEnvUnion allOkWorld.environ (buildOverrides "darwin" "amd64"))) ∧
    (pyEnvUnion allOkWorld.environ (buildOverrides "darwin" "amd64") =
       pyEnvUnion allOkWorld.environ (buildOverrides "darwin" "amd64") ∧
     pyEnvUnion allOkWorld.environ (buildOverrides "darwin" "amd64") "GOOS" = some "darwin" ∧
     pyEnvUnion allOkWorld.environ (buildOverrides "darwin" "amd64") "GOARCH" = some "amd64" ∧
     pyEnvUnion allOkWorld.environ (buildOverrides "darwin" "amd64") "CGO_ENABLED" = some "0" ∧
     (∀ k, k ≠ "GOOS" → k ≠ "GOARCH" → k ≠ "CGO_ENABLED" →
        pyEnvUnion allOkWorld.environ (buildOverrides "darwin" "amd64") k =
          allOkWorld.environ k)) :=
  ⟨rfl, claim_C8_env_overlay allOkWorld 4 "darwin" "amd64"
     (pyEnvUnion allOkWorld.environ (buildOverrides "darwin" "amd64")) rfl⟩

theorem claim_C9_witness :
    normalize_tag "1.2.0+abc123-rc1".toList = some "1.2.0-rc1+abc123".toList ∧
    normalize_tag "1.2.0-rc1+abc123".toList = some "1.2.0-rc1+abc123".toList :=
  ⟨by decide, claim_C9_idempotent "1.2.0+abc123-rc1".toList "1.2.0-rc1+abc123".toList
     (by decide)⟩
